import Mathlib

/-!
Shallow embedding of the green-thread runtime in `src/src/main.rs`
(the Unix variant, `#[cfg(not(target_os = "windows"))]`).

Modelling conventions:
* Machine integers (`usize`, `u64`) are `Nat`; none of the modelled code
  overflows (`pos` stays below `threads.len()`, stack offsets below the
  stack length).
* A thread's 2 MiB stack buffer is modelled by its allocation address
  (`stackBase`, arbitrary, supplied to `Runtime.new` as `bases`), its
  length (`stackLen`), and a log of the 8-byte cells `ptr::write` stored
  into it (`stackMem`, keyed by byte offset from the base, most recent
  write first).
* Code addresses (`guard as u64`, `f as u64`) are link-time constants the
  Rust source obtains from the compiler; the embedding passes them to
  `spawn` explicitly as `Nat` parameters.
* The `switch` primitive is inline assembly that transfers control; its
  effect on the `Runtime` data structure is nil (it writes only the saved
  register records through raw pointers at the moment of the transfer).
  The embedding records each invocation as the pair of slot indices whose
  contexts are passed to it, so theorems can speak about which switch was
  requested.
* `spawn`'s `.expect("no available thread.")` panic is modelled as
  `Except.error SpawnError.resourceExhausted`; out-of-range `Vec`
  indexing (a Rust panic, unreachable in the modelled states) is modelled
  by `List.getD` with a default thread.
-/

namespace GreenThreads

/-- `const DEFAULT_STACK_SIZE: usize = 1024 * 1024 * 2;` -/
def DEFAULT_STACK_SIZE : Nat := 1024 * 1024 * 2

/-- `const MAX_THREADS: usize = 4;` -/
def MAX_THREADS : Nat := 4

/-- `enum State { Available, Running, Ready }` -/
inductive State where
  | Available
  | Running
  | Ready
deriving DecidableEq

/-- `struct ThreadContext` (Unix variant): `rsp` plus six callee-saved
general-purpose registers, all `u64`, zero-initialized by `default()`. -/
structure ThreadContext where
  rsp : Nat
  r15 : Nat
  r14 : Nat
  r13 : Nat
  r12 : Nat
  rbx : Nat
  rbp : Nat
deriving DecidableEq

/-- `ThreadContext::default()`. -/
def ThreadContext.default : ThreadContext :=
  ⟨0, 0, 0, 0, 0, 0, 0⟩

/-- One 8-byte store into a stack buffer: `ptr::write(base + offset, v)`.
The log keeps the newest write first. -/
def writeCell (mem : List (Nat × Nat)) (off v : Nat) : List (Nat × Nat) :=
  (off, v) :: mem

/-- Read the 8-byte cell at `off`: the newest write there, `0` (the
`vec![0_u8; ..]` fill) when the cell was never written. -/
def readCell (mem : List (Nat × Nat)) (off : Nat) : Nat :=
  match mem.find? (fun c => c.1 = off) with
  | some c => c.2
  | none => 0

/-- `struct Thread { id, stack, ctx, state }`; the stack buffer is
modelled by base address, length and write log. -/
structure Thread where
  id : Nat
  stackBase : Nat
  stackLen : Nat
  stackMem : List (Nat × Nat)
  ctx : ThreadContext
  state : State
deriving DecidableEq

/-- Default thread handed to `List.getD` for out-of-range indices (the
Rust code would panic there; the modelled states never reach it). -/
def dT : Thread :=
  ⟨0, 0, 0, [], ThreadContext.default, State.Available⟩

/-- `Thread::new(id)`: fresh Available slot with a zeroed context and a
`DEFAULT_STACK_SIZE`-byte stack allocated at `base`. -/
def Thread.new (base id : Nat) : Thread :=
  ⟨id, base, DEFAULT_STACK_SIZE, [], ThreadContext.default, State.Available⟩

/-- `struct Runtime { threads: Vec<Thread>, current: usize }` -/
structure Runtime where
  threads : List Thread
  current : Nat
deriving DecidableEq

/-- `Runtime::new()`: slot 0 is the base thread pre-marked `Running`,
slots `1..MAX_THREADS` come from `Thread::new(i)`; `current = 0`.
`bases` supplies each slot's (arbitrary) stack allocation address; the
Rust constructor takes no parameter, capacity is the compile-time
constant `MAX_THREADS`. -/
def Runtime.new (bases : Nat → Nat) : Runtime :=
  { threads :=
      ⟨0, bases 0, DEFAULT_STACK_SIZE, [], ThreadContext.default, State.Running⟩
        :: (List.range' 1 (MAX_THREADS - 1)).map (fun i => Thread.new (bases i) i),
    current := 0 }

/-- The wrap-around step of `t_yield`'s scan:
`pos += 1; if pos == self.threads.len() { pos = 0; }`. -/
def nextPos (len pos : Nat) : Nat :=
  if pos + 1 = len then 0 else pos + 1

/-- The scan loop of `t_yield`: starting at `pos`, look for the first
slot whose state is `Ready`; give up (`none`) after `fuel` probes.
With `fuel = threads.length` this is exactly the Rust loop, which probes
`current, current+1, …` wrapping and stops when `pos` returns to
`current`. -/
def scanFrom (threads : List Thread) (pos fuel : Nat) : Option Nat :=
  match fuel with
  | 0 => none
  | fuel + 1 =>
    if (threads.getD pos dT).state = State.Ready then some pos
    else scanFrom threads (nextPos threads.length pos) fuel

/-- The position `t_yield`'s scan selects, if any. -/
def findReadyPos (rt : Runtime) : Option Nat :=
  scanFrom rt.threads rt.current rt.threads.length

/-- `Runtime::t_yield`. Returns the new runtime, the `bool` the Rust
function returns, and the `(old, new)` slot-index pair passed to the
`switch` primitive when one was invoked. -/
def t_yield (rt : Runtime) : Runtime × Bool × Option (Nat × Nat) :=
  match findReadyPos rt with
  | none => (rt, false, none)
  | some pos =>
    let ts :=
      if (rt.threads.getD rt.current dT).state ≠ State.Available then
        rt.threads.set rt.current
          { rt.threads.getD rt.current dT with state := State.Ready }
      else rt.threads
    let ts := ts.set pos { ts.getD pos dT with state := State.Running }
    let old_pos := rt.current
    (⟨ts, pos⟩, true, some (old_pos, pos))

/-- `Runtime::t_return`: nothing when `current == 0`; otherwise mark the
current slot `Available` and call `t_yield` (whose `bool` the Rust code
discards). The second component records the switch invocation, if any. -/
def t_return (rt : Runtime) : Runtime × Option (Nat × Nat) :=
  if rt.current ≠ 0 then
    let ts := rt.threads.set rt.current
      { rt.threads.getD rt.current dT with state := State.Available }
    let r := t_yield ⟨ts, rt.current⟩
    (r.1, r.2.2)
  else (rt, none)

/-- `fn yield_thread()`: calls `t_yield` on the process-wide runtime and
discards its result. -/
def yield_thread (rt : Runtime) : Runtime :=
  (t_yield rt).1

/-- `spawn`'s failure: the Rust code panics via
`.expect("no available thread.")`; the embedding reports it. -/
inductive SpawnError where
  | resourceExhausted
deriving DecidableEq

/-- `Runtime::spawn(f)` (Unix variant). `g` is the code address of
`guard` (`guard as u64`), `f` the body's code address (`f as u64`).
Finds the first `Available` slot, writes `g` at stack offset
`size - 24` and `f` at `size - 32`, points the saved `rsp` at the cell
holding `f`, and marks the slot `Ready`. -/
def spawn (g f : Nat) (rt : Runtime) : Except SpawnError Runtime :=
  match rt.threads.findIdx? (fun t => t.state = State.Available) with
  | none => .error .resourceExhausted
  | some i =>
    let t := rt.threads.getD i dT
    let size := t.stackLen
    let t := { t with
      stackMem := writeCell (writeCell t.stackMem (size - 24) g) (size - 32) f,
      ctx := { t.ctx with rsp := t.stackBase + (size - 32) },
      state := State.Ready }
    .ok { rt with threads := rt.threads.set i t }

/-- The observable outcome of `Runtime::run`, whose Rust type is `!`:
the only way it ends is `std::process::exit(0)`. -/
inductive RunOutcome where
  | exited (code : Nat)
deriving DecidableEq

/-- `Runtime::run`: `while self.t_yield() {} std::process::exit(0);`,
fuel-indexed; `none` means the loop was still running after `fuel`
iterations. -/
def run (fuel : Nat) (rt : Runtime) : Option RunOutcome :=
  match fuel with
  | 0 => none
  | fuel + 1 =>
    let r := t_yield rt
    if r.2.1 then run fuel r.1 else some (RunOutcome.exited 0)

/-- One scheduler-visible step: a successful `spawn` (with any code
addresses), a `t_yield`, or a `t_return`. A failed `spawn` panics and
ends the execution, so it contributes no step. -/
inductive Step : Runtime → Runtime → Prop where
  | spawn (g f : Nat) (rt rt' : Runtime) :
      spawn g f rt = .ok rt' → Step rt rt'
  | yield (rt : Runtime) : Step rt (t_yield rt).1
  | ret (rt : Runtime) : Step rt (t_return rt).1

/-- States reachable from a freshly constructed runtime. -/
def Reachable (bases : Nat → Nat) (rt : Runtime) : Prop :=
  Relation.ReflTransGen Step (Runtime.new bases) rt

/-- Boolean form of "the slot at position `p` is `Ready`". -/
def isReadyAt (threads : List Thread) (p : Nat) : Bool :=
  (threads.getD p dT).state = State.Ready

/-- The scan the spec's words describe: "linear scan starting just after
`current`, wrapping, for the first slot in state `Ready`", giving up when
it "wraps back to `current`" — i.e. it probes the `len - 1` positions
`current+1, …, current+len-1` (mod `len`) and never probes `current`
itself. Written from the spec, to be compared with `findReadyPos`, which
is written from the source. -/
def specScanJustAfter (rt : Runtime) : Option Nat :=
  ((List.range (rt.threads.length - 1)).map
      (fun k => (rt.current + 1 + k) % rt.threads.length)).find?
    (isReadyAt rt.threads)

/-!
Simulator for the round-robin interleaving claim: `N` bodies are spawned
into slots `1..N`, each body is the loop
`for i in 0..K { observe; yield_thread(); }` followed by return (which
lands in `guard`, hence `t_return`), and slot 0 runs `Runtime::run`'s
`while self.t_yield() {}` loop. `yl` holds each slot's remaining loop
iterations; the trace lists the slot index at each observation (the
`println!` in the source's `main`). Everything scheduler-related is the
modelled source code (`t_yield`, `t_return`, `spawn`); the simulator only
supplies the bodies.
-/

/-- Run the cooperative system for at most `fuel` scheduling events;
`some trace` once slot 0's run loop sees `t_yield() == false` (the
process exits), `none` if the fuel ran out first. -/
def sim (fuel : Nat) (rt : Runtime) (yl : List Nat) : Option (List Nat) :=
  match fuel with
  | 0 => none
  | fuel + 1 =>
    if rt.current = 0 then
      let r := t_yield rt
      if r.2.1 then sim fuel r.1 yl else some []
    else
      match yl.getD rt.current 0 with
      | 0 => sim fuel (t_return rt).1 yl
      | y + 1 =>
        (sim fuel (t_yield rt).1 (yl.set rt.current y)).map
          (fun tr => rt.current :: tr)

/-- Spawn `n` bodies in a row (code addresses are irrelevant to
scheduling; a failed spawn would abort, which never happens for
`n ≤ MAX_THREADS - 1`). -/
def spawnN (n : Nat) (rt : Runtime) : Runtime :=
  match n with
  | 0 => rt
  | n + 1 => match spawn 0 0 (spawnN n rt) with
    | .ok rt' => rt'
    | .error _ => spawnN n rt

/-- The runtime right before `run()`: a fresh `Runtime` (stacks at
address 0, immaterial to scheduling) with `N` bodies spawned. -/
def initRT (N : Nat) : Runtime :=
  spawnN N (Runtime.new (fun _ => 0))

/-- Remaining loop iterations per slot: `K` for the body slots
`1..N`, `0` elsewhere. -/
def ylOf (N K : Nat) : List Nat :=
  (List.range MAX_THREADS).map (fun j => if 1 ≤ j ∧ j ≤ N then K else 0)

/-- The strict round-robin interleaving: `K` rounds of `1, 2, …, N`. -/
def rrTrace (N K : Nat) : List Nat :=
  (List.replicate K (List.range' 1 N)).flatten

/-- Exact number of scheduling events of the `N`-bodies/`K`-yields
scenario: `N+1` per round, then `N+2` to drain and exit. -/
def simFuel (N K : Nat) : Nat :=
  (N + 1) * K + N + 2

/-! ## Basic list lemmas for the slot table -/

lemma getD_set_self (l : List Thread) (i : Nat) (a : Thread) (h : i < l.length) :
    (l.set i a).getD i dT = a := by
  simp [List.getD_eq_getElem?_getD, List.getElem?_set_self h]

lemma readCell_writeCell_self (mem : List (Nat × Nat)) (off v : Nat) :
    readCell (writeCell mem off v) off = v := by
  unfold readCell writeCell
  rw [List.find?_cons_of_pos _ (by simp)]

lemma readCell_writeCell_ne (mem : List (Nat × Nat)) (off off' v : Nat)
    (h : off ≠ off') :
    readCell (writeCell mem off v) off' = readCell mem off' := by
  unfold readCell writeCell
  rw [List.find?_cons_of_neg _ (by simpa using h)]

lemma getD_set_ne (l : List Thread) (i j : Nat) (a : Thread) (h : i ≠ j) :
    (l.set i a).getD j dT = l.getD j dT := by
  simp [List.getD_eq_getElem?_getD, List.getElem?_set_ne h]

lemma getD_of_ge (l : List Thread) (i : Nat) (h : l.length ≤ i) :
    l.getD i dT = dT := by
  simp [List.getD_eq_getElem?_getD, List.getElem?_eq_none h]

/-! ## Characterizing the `t_yield` scan -/

/-- The scan loop, written as a `find?` over the probed positions
`pos, pos+1, …, pos+fuel-1` (mod the table length). -/
lemma scanFrom_eq_find (threads : List Thread) (fuel : Nat) :
    ∀ pos, pos < threads.length →
      scanFrom threads pos fuel =
        ((List.range fuel).map (fun k => (pos + k) % threads.length)).find?
          (isReadyAt threads) := by
  induction fuel with
  | zero => intro pos _; simp [scanFrom]
  | succ fuel ih =>
    intro pos hpos
    rw [scanFrom, List.range_succ_eq_map, List.map_cons]
    have h0 : (pos + 0) % threads.length = pos := by
      simpa using Nat.mod_eq_of_lt hpos
    rw [h0]
    by_cases h : (threads.getD pos dT).state = State.Ready
    · rw [if_pos h, List.find?_cons_of_pos _ (by unfold isReadyAt; exact decide_eq_true h)]
    · rw [if_neg h, List.find?_cons_of_neg _
        (by unfold isReadyAt; simp only [decide_eq_true_eq]; exact h)]
      have hnext : nextPos threads.length pos < threads.length := by
        unfold nextPos; split <;> omega
      have hfg : ((fun k => (pos + k) % threads.length) ∘ Nat.succ)
          = (fun k => (nextPos threads.length pos + k) % threads.length) := by
        funext k
        simp only [Function.comp_apply]
        unfold nextPos
        split
        · rw [Nat.zero_add, show pos + Nat.succ k = threads.length + k by omega,
            Nat.add_mod_left]
        · congr 1
          omega
      rw [ih (nextPos threads.length pos) hnext, List.map_map, hfg]

/-- Probing from an out-of-range start never finds anything: every probe
reads the default (Available) thread and the cursor never wraps. (The
Rust code would have panicked on the first out-of-range index; theorems
only use in-range starts.) -/
lemma scanFrom_none_of_ge (threads : List Thread) (fuel : Nat) :
    ∀ pos, threads.length ≤ pos → scanFrom threads pos fuel = none := by
  induction fuel with
  | zero => intro pos _; rfl
  | succ fuel ih =>
    intro pos hp
    rw [scanFrom, getD_of_ge _ _ hp, if_neg (by simp [dT])]
    exact ih _ (by unfold nextPos; split <;> omega)

lemma findReadyPos_lt (rt : Runtime) (pos : Nat) (h : findReadyPos rt = some pos) :
    rt.current < rt.threads.length := by
  by_contra hge
  rw [findReadyPos, scanFrom_none_of_ge _ _ _ (by omega)] at h
  simp at h

/-- A selected position is in range and `Ready`. -/
lemma findReadyPos_spec (rt : Runtime) (pos : Nat) (h : findReadyPos rt = some pos) :
    pos < rt.threads.length ∧ (rt.threads.getD pos dT).state = State.Ready := by
  have hcur := findReadyPos_lt rt pos h
  rw [findReadyPos, scanFrom_eq_find _ _ _ hcur] at h
  have hmem := List.mem_of_find?_eq_some h
  have hsat := List.find?_some h
  refine ⟨?_, by simpa [isReadyAt] using hsat⟩
  obtain ⟨k, -, hk⟩ := List.mem_map.1 hmem
  exact hk ▸ Nat.mod_lt _ (by omega)

/-- Completeness: when some in-range slot is `Ready`, the scan finds one. -/
lemma findReadyPos_isSome_of_ready (rt : Runtime) (j : Nat)
    (hcur : rt.current < rt.threads.length) (hj : j < rt.threads.length)
    (hready : (rt.threads.getD j dT).state = State.Ready) :
    ∃ pos, findReadyPos rt = some pos := by
  rw [findReadyPos, scanFrom_eq_find _ _ _ hcur]
  cases hfind : ((List.range rt.threads.length).map
      (fun k => (rt.current + k) % rt.threads.length)).find?
        (isReadyAt rt.threads) with
  | some pos => exact ⟨pos, rfl⟩
  | none =>
    exfalso
    have hnone := List.find?_eq_none.1 hfind j ?_
    · exact hnone (by simpa [isReadyAt] using hready)
    · rcases le_or_lt rt.current j with hle | hlt
      · refine List.mem_map.2 ⟨j - rt.current, List.mem_range.2 (by omega), ?_⟩
        rw [Nat.add_sub_cancel' hle, Nat.mod_eq_of_lt hj]
      · refine List.mem_map.2
          ⟨j + rt.threads.length - rt.current, List.mem_range.2 (by omega), ?_⟩
        rw [show rt.current + (j + rt.threads.length - rt.current)
              = j + rt.threads.length by omega,
          Nat.add_mod_right, Nat.mod_eq_of_lt hj]

/-! ## What one `t_yield` does to the state -/

/-- `t_yield` when the scan finds nothing: the runtime is returned
untouched, the function returns `false`, no switch is invoked. -/
lemma t_yield_none (rt : Runtime) (h : findReadyPos rt = none) :
    t_yield rt = (rt, false, none) := by
  rw [t_yield, h]

/-- `t_yield` when the scan selects `pos`: the selected slot becomes
`Running` (its other fields untouched), `current` moves to `pos`, the
old current slot is demoted to `Ready` unless it was `Available`, every
other slot is untouched, the switch primitive is invoked on
`(old current, pos)`, and the function returns `true`. -/
lemma t_yield_some (rt : Runtime) (pos : Nat) (h : findReadyPos rt = some pos) :
    (t_yield rt).1.current = pos ∧
    (t_yield rt).2.1 = true ∧
    (t_yield rt).2.2 = some (rt.current, pos) ∧
    (t_yield rt).1.threads.length = rt.threads.length ∧
    (t_yield rt).1.threads.getD pos dT
      = { rt.threads.getD pos dT with state := State.Running } ∧
    (∀ j, j ≠ pos → j ≠ rt.current →
      (t_yield rt).1.threads.getD j dT = rt.threads.getD j dT) ∧
    (rt.current ≠ pos →
      (t_yield rt).1.threads.getD rt.current dT
        = if (rt.threads.getD rt.current dT).state ≠ State.Available
          then { rt.threads.getD rt.current dT with state := State.Ready }
          else rt.threads.getD rt.current dT) := by
  have hcur : rt.current < rt.threads.length := findReadyPos_lt rt pos h
  have hpos : pos < rt.threads.length := (findReadyPos_spec rt pos h).1
  have heq : t_yield rt =
      (⟨(if (rt.threads.getD rt.current dT).state ≠ State.Available
          then rt.threads.set rt.current
            { rt.threads.getD rt.current dT with state := State.Ready }
          else rt.threads).set pos
          { (if (rt.threads.getD rt.current dT).state ≠ State.Available
             then rt.threads.set rt.current
               { rt.threads.getD rt.current dT with state := State.Ready }
             else rt.threads).getD pos dT with state := State.Running }, pos⟩,
       true, some (rt.current, pos)) := by
    rw [t_yield, h]
  rw [heq]
  set tsMid := if (rt.threads.getD rt.current dT).state ≠ State.Available then
      rt.threads.set rt.current
        { rt.threads.getD rt.current dT with state := State.Ready }
    else rt.threads with htsMid
  have hmidlen : tsMid.length = rt.threads.length := by
    rw [htsMid]; split <;> simp
  have hmid_ne : ∀ j, j ≠ rt.current → tsMid.getD j dT = rt.threads.getD j dT := by
    intro j hj
    rw [htsMid]; split
    · exact getD_set_ne _ _ _ _ (fun e => hj e.symm)
    · rfl
  have hmid_cur : tsMid.getD rt.current dT
      = if (rt.threads.getD rt.current dT).state ≠ State.Available
        then { rt.threads.getD rt.current dT with state := State.Ready }
        else rt.threads.getD rt.current dT := by
    rw [htsMid]
    by_cases hc : (rt.threads.getD rt.current dT).state ≠ State.Available
    · rw [if_pos hc, if_pos hc, getD_set_self _ _ _ hcur]
    · rw [if_neg hc, if_neg hc]
  refine ⟨rfl, rfl, rfl, by simp [hmidlen], ?_, ?_, ?_⟩
  · show (tsMid.set pos _).getD pos dT = _
    rw [getD_set_self _ _ _ (by omega : pos < tsMid.length)]
    by_cases hpc : pos = rt.current
    · subst hpc
      rw [hmid_cur]
      by_cases hc : (rt.threads.getD rt.current dT).state ≠ State.Available
      · rw [if_pos hc]
      · rw [if_neg hc]
    · rw [hmid_ne pos hpc]
  · intro j hjp hjc
    show (tsMid.set pos _).getD j dT = _
    rw [getD_set_ne _ _ _ _ (fun e => hjp e.symm), hmid_ne j hjc]
  · intro hcp
    show (tsMid.set pos _).getD rt.current dT = _
    rw [getD_set_ne _ _ _ _ (fun e => hcp e.symm), hmid_cur]

lemma getD_eq_getElem (l : List Thread) (i : Nat) (h : i < l.length) :
    l.getD i dT = l[i] := by
  simp [List.getD_eq_getElem?_getD, List.getElem?_eq_getElem h]

/-! ## The scheduler invariant -/

/-- Invariant of every state a complete `spawn` / `t_yield` / `t_return`
leaves behind: the table keeps its `MAX_THREADS` slots with their ids
and stack sizes, the cursor is in range, the slot at `current` is the
unique `Running` one, and slot 0 (the implicit main thread, never
spawned) is `Ready` whenever it is not the current slot. -/
def Inv (rt : Runtime) : Prop :=
  rt.threads.length = MAX_THREADS ∧
  rt.current < MAX_THREADS ∧
  (rt.threads.getD rt.current dT).state = State.Running ∧
  (∀ i, i < MAX_THREADS → (rt.threads.getD i dT).state = State.Running →
    i = rt.current) ∧
  (rt.current ≠ 0 → (rt.threads.getD 0 dT).state = State.Ready) ∧
  (∀ i, i < MAX_THREADS →
    (rt.threads.getD i dT).id = i ∧
    (rt.threads.getD i dT).stackLen = DEFAULT_STACK_SIZE)

lemma new_eq (bases : Nat → Nat) :
    Runtime.new bases =
      ⟨[⟨0, bases 0, DEFAULT_STACK_SIZE, [], ThreadContext.default, State.Running⟩,
        Thread.new (bases 1) 1, Thread.new (bases 2) 2, Thread.new (bases 3) 3],
       0⟩ := rfl

lemma inv_new (bases : Nat → Nat) : Inv (Runtime.new bases) := by
  rw [new_eq]
  refine ⟨rfl, by simp [MAX_THREADS], rfl, ?_, by simp, ?_⟩
  · intro i hi hr
    simp only [MAX_THREADS] at hi
    interval_cases i <;> simp_all [Thread.new]
  · intro i hi
    simp only [MAX_THREADS] at hi
    interval_cases i <;> simp [Thread.new]

lemma inv_spawn (g f : Nat) (rt rt' : Runtime) (hInv : Inv rt)
    (h : spawn g f rt = .ok rt') : Inv rt' := by
  obtain ⟨hlen, hcur, hrun, huniq, hzero, hids⟩ := hInv
  rw [spawn] at h
  cases hidx : rt.threads.findIdx? (fun t => t.state = State.Available) with
  | none => rw [hidx] at h; cases h
  | some i =>
    rw [hidx] at h
    obtain ⟨hi, hpi, -⟩ := List.findIdx?_eq_some_iff_getElem.1 hidx
    have havail : (rt.threads.getD i dT).state = State.Available := by
      rw [getD_eq_getElem _ _ hi]
      simpa using hpi
    have hic : i ≠ rt.current := fun e => by
      rw [e, hrun] at havail; cases havail
    have hi0 : i ≠ 0 := by
      intro e
      subst e
      by_cases hc0 : rt.current = 0
      · exact hic hc0.symm
      · have h0 := hzero hc0
        rw [havail] at h0
        cases h0
    injection h with h'
    subst h'
    refine ⟨by simpa using hlen, hcur, ?_, ?_, ?_, ?_⟩
    · rw [getD_set_ne _ _ _ _ hic]
      exact hrun
    · intro j hj hrj
      by_cases hji : j = i
      · subst hji
        rw [getD_set_self _ _ _ hi] at hrj
        cases hrj
      · rw [getD_set_ne _ _ _ _ (fun e => hji e.symm)] at hrj
        exact huniq j hj hrj
    · intro hc0
      rw [getD_set_ne _ _ _ _ hi0]
      exact hzero hc0
    · intro j hj
      by_cases hji : j = i
      · subst hji
        rw [getD_set_self _ _ _ hi]
        exact hids j hj
      · rw [getD_set_ne _ _ _ _ (fun e => hji e.symm)]
        exact hids j hj

lemma inv_yield (rt : Runtime) (hInv : Inv rt) : Inv (t_yield rt).1 := by
  obtain ⟨hlen, hcur, hrun, huniq, hzero, hids⟩ := hInv
  cases hfind : findReadyPos rt with
  | none => rw [t_yield_none rt hfind]; exact ⟨hlen, hcur, hrun, huniq, hzero, hids⟩
  | some pos =>
    obtain ⟨hposlt, hready⟩ := findReadyPos_spec rt pos hfind
    obtain ⟨hcur', -, -, hlen', hpos', hother', hdem'⟩ := t_yield_some rt pos hfind
    have hpc : rt.current ≠ pos := fun e => by
      rw [← e, hrun] at hready; cases hready
    have hdem : (t_yield rt).1.threads.getD rt.current dT
        = { rt.threads.getD rt.current dT with state := State.Ready } := by
      rw [hdem' hpc, if_pos (by rw [hrun]; simp)]
    refine ⟨by rw [hlen', hlen], by rw [hcur']; omega, ?_, ?_, ?_, ?_⟩
    · rw [hcur', hpos']
    · intro j hj hrj
      rw [hcur']
      by_cases hjp : j = pos
      · exact hjp
      · exfalso
        by_cases hjc : j = rt.current
        · subst hjc
          rw [hdem] at hrj
          cases hrj
        · rw [hother' j hjp hjc] at hrj
          exact hjc (huniq j hj hrj)
    · intro h0
      rw [hcur'] at h0
      by_cases h0c : rt.current = 0
      · rw [← h0c, hdem]
      · rw [hother' 0 (fun e => h0 e.symm) (fun e => h0c e.symm)]
        exact hzero h0c
    · intro j hj
      by_cases hjp : j = pos
      · subst hjp
        rw [hpos']
        exact hids j hj
      · by_cases hjc : j = rt.current
        · subst hjc
          rw [hdem]
          exact hids rt.current hj
        · rw [hother' j hjp hjc]
          exact hids j hj

lemma inv_return (rt : Runtime) (hInv : Inv rt) : Inv (t_return rt).1 := by
  by_cases hc0 : rt.current = 0
  · rw [t_return, if_neg (by simpa using hc0)]
    exact hInv
  · obtain ⟨hlen, hcur, hrun, huniq, hzero, hids⟩ := hInv
    rw [t_return, if_pos hc0]
    set rt1 : Runtime := ⟨rt.threads.set rt.current
      { rt.threads.getD rt.current dT with state := State.Available },
      rt.current⟩ with hrt1
    show Inv (t_yield rt1).1
    have hlen1 : rt1.threads.length = MAX_THREADS := by
      rw [hrt1]; simpa using hlen
    have hcur1 : (rt1.threads.getD rt1.current dT).state = State.Available := by
      rw [hrt1]
      exact congrArg Thread.state (getD_set_self _ _ _ (by omega))
    have hzero1 : (rt1.threads.getD 0 dT).state = State.Ready := by
      rw [hrt1]
      show ((rt.threads.set rt.current _).getD 0 dT).state = State.Ready
      rw [getD_set_ne _ _ _ _ hc0]
      exact hzero hc0
    have hnone1 : ∀ i, i < MAX_THREADS →
        (rt1.threads.getD i dT).state ≠ State.Running := by
      intro i hi hri
      by_cases hic : i = rt.current
      · subst hic
        rw [hcur1] at hri; cases hri
      · rw [hrt1] at hri
        rw [show rt1.threads = rt.threads.set rt.current
            { rt.threads.getD rt.current dT with state := State.Available }
          from rfl] at hri
        rw [getD_set_ne _ _ _ _ (fun e => hic e.symm)] at hri
        exact hic (huniq i hi hri)
    obtain ⟨pos, hfind⟩ := findReadyPos_isSome_of_ready rt1 0
      (by rw [hlen1]; show rt.current < MAX_THREADS; omega)
      (by rw [hlen1, MAX_THREADS]; omega) hzero1
    obtain ⟨hposlt, hready⟩ := findReadyPos_spec rt1 pos hfind
    obtain ⟨hcur', -, -, hlen', hpos', hother', hdem'⟩ := t_yield_some rt1 pos hfind
    have hpc : rt1.current ≠ pos := fun e => by
      rw [← e, hcur1] at hready; cases hready
    have hdem : (t_yield rt1).1.threads.getD rt1.current dT
        = rt1.threads.getD rt1.current dT := by
      rw [hdem' hpc, if_neg (by rw [hcur1]; simp)]
    refine ⟨by rw [hlen', hlen1], by rw [hcur']; omega, ?_, ?_, ?_, ?_⟩
    · rw [hcur', hpos']
    · intro j hj hrj
      rw [hcur']
      by_cases hjp : j = pos
      · exact hjp
      · exfalso
        by_cases hjc : j = rt1.current
        · subst hjc
          rw [hdem, hcur1] at hrj
          cases hrj
        · rw [hother' j hjp hjc] at hrj
          exact hnone1 j (by omega : j < MAX_THREADS) hrj
    · intro h0
      rw [hcur'] at h0
      by_cases h0c : rt1.current = 0
      · exact absurd h0c hc0
      · rw [hother' 0 (fun e => h0 e.symm) (fun e => h0c e.symm)]
        exact hzero1
    · intro j hj
      have hids1 : (rt1.threads.getD j dT).id = j ∧
          (rt1.threads.getD j dT).stackLen = DEFAULT_STACK_SIZE := by
        by_cases hjc : j = rt.current
        · subst hjc
          rw [hrt1]
          show ((rt.threads.set _ _).getD rt.current dT).id = rt.current ∧ _
          rw [getD_set_self _ _ _ (by omega)]
          exact hids rt.current hcur
        · rw [hrt1]
          show ((rt.threads.set _ _).getD j dT).id = j ∧ _
          rw [getD_set_ne _ _ _ _ (fun e => hjc e.symm)]
          exact hids j hj
      by_cases hjp : j = pos
      · subst hjp
        rw [hpos']
        exact hids1
      · by_cases hjc : j = rt1.current
        · subst hjc
          rw [hdem]
          exact hids1
        · rw [hother' j hjp hjc]
          exact hids1

lemma inv_step (a b : Runtime) (hstep : Step a b) (hInv : Inv a) : Inv b := by
  cases hstep with
  | spawn g f hs => exact inv_spawn g f _ _ hInv (by assumption)
  | yield => exact inv_yield _ hInv
  | ret => exact inv_return _ hInv

/-- Every reachable state satisfies the scheduler invariant. -/
lemma reachable_inv (bases : Nat → Nat) (rt : Runtime)
    (h : Reachable bases rt) : Inv rt := by
  induction h with
  | refl => exact inv_new bases
  | tail _ hstep ih => exact inv_step _ _ hstep ih

/-! ## Claim C2 -/

/-- A state (not reachable, but the claim ranges over every `Runtime`
state) whose current slot is itself `Ready`: slots 0 and 1 `Ready`,
cursor at 0. -/
def rtX : Runtime :=
  ⟨[{ Thread.new 0 0 with state := State.Ready },
    { Thread.new 0 1 with state := State.Ready },
    Thread.new 0 2, Thread.new 0 3], 0⟩

/-- C2 counterexample: the claim says the scan starts just after
`current`, so on `rtX` it would have to select slot 1 (which is `Ready`)
and move the cursor there; the code's loop tests `current` first, finds
it `Ready`, selects slot 0 and leaves the cursor at 0 (returning true). -/
theorem C2_counterexample :
    rtX.current = 0 ∧
    (rtX.threads.getD 1 dT).state = State.Ready ∧
    findReadyPos rtX = some 0 ∧
    specScanJustAfter rtX = some 1 ∧
    (t_yield rtX).1.current = 0 ∧
    (t_yield rtX).2.1 = true := by
  decide

/-- C2 (amended): provided the slot at `current` is not itself `Ready`
(which holds in every reachable state, where it is `Running` or
`Available`), `t_yield`'s scan is exactly a linear scan starting just
after `current`, wrapping around the slot table, selecting the first
`Ready` slot; and when the scan finds none, `t_yield` returns `false`
with the runtime unchanged (no state or cursor change) and no switch. -/
theorem C2_scan_just_after (rt : Runtime)
    (hcur : rt.current < rt.threads.length)
    (hnr : (rt.threads.getD rt.current dT).state ≠ State.Ready) :
    findReadyPos rt = specScanJustAfter rt ∧
    (findReadyPos rt = none → t_yield rt = (rt, false, none)) := by
  refine ⟨?_, fun h => t_yield_none rt h⟩
  rw [findReadyPos, scanFrom_eq_find _ _ _ hcur, specScanJustAfter]
  obtain ⟨m, hm⟩ : ∃ m, rt.threads.length = m + 1 := ⟨rt.threads.length - 1, by omega⟩
  have hm' : rt.threads.length - 1 = m := by omega
  rw [hm', hm, List.range_succ_eq_map, List.map_cons,
    List.find?_cons_of_neg _ (by
      rw [show (rt.current + 0) % (m + 1) = rt.current from by
        rw [Nat.add_zero, Nat.mod_eq_of_lt (hm ▸ hcur)]]
      unfold isReadyAt
      simp only [decide_eq_true_eq]
      exact hnr),
    List.map_map]
  have hfg : ((fun k => (rt.current + k) % (m + 1)) ∘ Nat.succ)
      = (fun k => (rt.current + 1 + k) % (m + 1)) := by
    funext k
    simp only [Function.comp_apply]
    congr 1
    omega
  rw [hfg]

/-- C2 witness (for the amended theorem): the fresh runtime, whose
current slot is `Running`. -/
theorem C2_scan_just_after_witness :
    findReadyPos (Runtime.new (fun _ => 0))
      = specScanJustAfter (Runtime.new (fun _ => 0)) ∧
    (findReadyPos (Runtime.new (fun _ => 0)) = none →
      t_yield (Runtime.new (fun _ => 0))
        = (Runtime.new (fun _ => 0), false, none)) :=
  C2_scan_just_after (Runtime.new (fun _ => 0)) (by decide) (by decide)

/-! ## Claim C3 -/

/-- C3: whenever `t_yield`'s scan finds a `Ready` slot `pos`, it demotes
the current slot from `Running` to `Ready` (leaving it `Available` if it
was `Available`), promotes slot `pos` to `Running`, moves `current` to
`pos`, invokes the switch primitive on the old and new slots' contexts
(recorded as the index pair), and returns `true`. -/
theorem C3_switch_effect (rt : Runtime) (pos : Nat)
    (h : findReadyPos rt = some pos) :
    (t_yield rt).2.1 = true ∧
    (t_yield rt).2.2 = some (rt.current, pos) ∧
    (t_yield rt).1.current = pos ∧
    ((t_yield rt).1.threads.getD pos dT).state = State.Running ∧
    ((rt.threads.getD rt.current dT).state = State.Running →
      ((t_yield rt).1.threads.getD rt.current dT).state = State.Ready) ∧
    ((rt.threads.getD rt.current dT).state = State.Available →
      ((t_yield rt).1.threads.getD rt.current dT).state = State.Available) := by
  obtain ⟨hposlt, hready⟩ := findReadyPos_spec rt pos h
  obtain ⟨hcur', hb, hsw, hlen', hpos', hother', hdem'⟩ := t_yield_some rt pos h
  refine ⟨hb, hsw, hcur', by rw [hpos'], ?_, ?_⟩
  · intro hrunning
    have hpc : rt.current ≠ pos := fun e => by
      rw [e] at hrunning
      rw [hrunning] at hready
      cases hready
    rw [hdem' hpc, if_pos (by rw [hrunning]; simp)]
  · intro havail
    by_cases hpc : rt.current = pos
    · exfalso
      rw [hpc, hready] at havail
      cases havail
    · rw [hdem' hpc, if_neg (by rw [havail]; simp)]
      exact havail

/-- C3 witness: the fresh runtime with one spawned body; the scan finds
slot 1. -/
theorem C3_switch_effect_witness :
    (t_yield (initRT 1)).2.1 = true ∧
    (t_yield (initRT 1)).2.2 = some ((initRT 1).current, 1) ∧
    (t_yield (initRT 1)).1.current = 1 ∧
    ((t_yield (initRT 1)).1.threads.getD 1 dT).state = State.Running ∧
    (((initRT 1).threads.getD (initRT 1).current dT).state = State.Running →
      ((t_yield (initRT 1)).1.threads.getD (initRT 1).current dT).state
        = State.Ready) ∧
    (((initRT 1).threads.getD (initRT 1).current dT).state = State.Available →
      ((t_yield (initRT 1)).1.threads.getD (initRT 1).current dT).state
        = State.Available) :=
  C3_switch_effect (initRT 1) 1 (by decide)

/-! ## Claim C4 -/

/-- C4: in every state reachable from a fresh runtime (slot 0 pre-marked
`Running`) by complete `spawn` / `t_yield` / `t_return` steps (each step
of the embedding is the whole operation, so the switch window inside an
operation is not a visible state), the slot at `current` is `Running`
and it is the only `Running` slot. -/
theorem C4_unique_running (bases : Nat → Nat) (rt : Runtime)
    (h : Reachable bases rt) :
    (rt.threads.getD rt.current dT).state = State.Running ∧
    ∀ i, i < rt.threads.length →
      (rt.threads.getD i dT).state = State.Running → i = rt.current := by
  obtain ⟨hlen, hcur, hrun, huniq, -, -⟩ := reachable_inv bases rt h
  exact ⟨hrun, fun i hi hr => huniq i (by omega) hr⟩

/-- C4 witness: the fresh runtime itself. -/
theorem C4_unique_running_witness :
    ((Runtime.new (fun _ => 0)).threads.getD (Runtime.new (fun _ => 0)).current
      dT).state = State.Running ∧
    ∀ i, i < (Runtime.new (fun _ => 0)).threads.length →
      ((Runtime.new (fun _ => 0)).threads.getD i dT).state = State.Running →
        i = (Runtime.new (fun _ => 0)).current :=
  C4_unique_running (fun _ => 0) (Runtime.new (fun _ => 0))
    Relation.ReflTransGen.refl

/-! ## Claim C10 -/

/-- C10: every reachable state keeps the structural shape: exactly
`MAX_THREADS = 4` slots, each slot's `id` equal to its index, each
slot's stack buffer of length `DEFAULT_STACK_SIZE = 2 MiB`. -/
theorem C10_structure (bases : Nat → Nat) (rt : Runtime)
    (h : Reachable bases rt) :
    rt.threads.length = MAX_THREADS ∧
    ∀ i, i < MAX_THREADS →
      (rt.threads.getD i dT).id = i ∧
      (rt.threads.getD i dT).stackLen = DEFAULT_STACK_SIZE := by
  obtain ⟨hlen, -, -, -, -, hids⟩ := reachable_inv bases rt h
  exact ⟨hlen, hids⟩

/-- C10 witness: the fresh runtime itself. -/
theorem C10_structure_witness :
    (Runtime.new (fun _ => 0)).threads.length = MAX_THREADS ∧
    ∀ i, i < MAX_THREADS →
      ((Runtime.new (fun _ => 0)).threads.getD i dT).id = i ∧
      ((Runtime.new (fun _ => 0)).threads.getD i dT).stackLen
        = DEFAULT_STACK_SIZE :=
  C10_structure (fun _ => 0) (Runtime.new (fun _ => 0))
    Relation.ReflTransGen.refl

/-! ## Claim C7 -/

/-- C7: calling the free yield function when every slot other than the
current one is `Available` returns `false` and changes nothing: the
runtime value (cursor, every slot's state, id and context) is returned
untouched. -/
theorem C7_noop_yield (bases : Nat → Nat) (rt : Runtime)
    (h : Reachable bases rt)
    (havail : ∀ j, j < rt.threads.length → j ≠ rt.current →
      (rt.threads.getD j dT).state = State.Available) :
    (t_yield rt).2.1 = false ∧ yield_thread rt = rt := by
  obtain ⟨hlen, hcur, hrun, -, -, -⟩ := reachable_inv bases rt h
  cases hfind : findReadyPos rt with
  | none =>
    rw [yield_thread, t_yield_none rt hfind]
    exact ⟨rfl, rfl⟩
  | some pos =>
    exfalso
    obtain ⟨hposlt, hready⟩ := findReadyPos_spec rt pos hfind
    by_cases hpc : pos = rt.current
    · rw [hpc, hrun] at hready
      cases hready
    · rw [havail pos hposlt hpc] at hready
      cases hready

/-- C7 witness: the fresh runtime (slots 1-3 `Available`). -/
theorem C7_noop_yield_witness :
    (t_yield (Runtime.new (fun _ => 0))).2.1 = false ∧
    yield_thread (Runtime.new (fun _ => 0)) = Runtime.new (fun _ => 0) :=
  C7_noop_yield (fun _ => 0) (Runtime.new (fun _ => 0))
    Relation.ReflTransGen.refl (by decide)

/-! ## Claim C5 -/

/-- C5: `t_return` on a reachable state. When the finishing slot is not
slot 0, it is marked `Available` and the immediately following `t_yield`
hands control elsewhere: the switch primitive is invoked from the
finishing slot to some other slot, which becomes the `Running` current
slot — a finished slot never falls through. When the finishing slot is
slot 0, `t_return` changes nothing (and invokes no switch). -/
theorem C5_return_reclaims (bases : Nat → Nat) (rt : Runtime)
    (h : Reachable bases rt) :
    (rt.current = 0 → t_return rt = (rt, none)) ∧
    (rt.current ≠ 0 →
      ((t_return rt).1.threads.getD rt.current dT).state = State.Available ∧
      ∃ pos, (t_return rt).2 = some (rt.current, pos) ∧
        (t_return rt).1.current = pos ∧ pos ≠ rt.current ∧
        ((t_return rt).1.threads.getD pos dT).state = State.Running) := by
  obtain ⟨hlen, hcur, hrun, huniq, hzero, hids⟩ := reachable_inv bases rt h
  constructor
  · intro hc0
    rw [t_return, if_neg (by simpa using hc0)]
  · intro hc0
    rw [t_return, if_pos hc0]
    set rt1 : Runtime := ⟨rt.threads.set rt.current
      { rt.threads.getD rt.current dT with state := State.Available },
      rt.current⟩ with hrt1
    have hlen1 : rt1.threads.length = MAX_THREADS := by
      rw [hrt1]; simpa using hlen
    have hcur1 : (rt1.threads.getD rt1.current dT).state = State.Available := by
      rw [hrt1]
      exact congrArg Thread.state (getD_set_self _ _ _ (by omega))
    have hzero1 : (rt1.threads.getD 0 dT).state = State.Ready := by
      rw [hrt1]
      show ((rt.threads.set rt.current _).getD 0 dT).state = State.Ready
      rw [getD_set_ne _ _ _ _ hc0]
      exact hzero hc0
    obtain ⟨pos, hfind⟩ := findReadyPos_isSome_of_ready rt1 0
      (by rw [hlen1]; show rt.current < MAX_THREADS; omega)
      (by rw [hlen1, MAX_THREADS]; omega) hzero1
    obtain ⟨hposlt, hready⟩ := findReadyPos_spec rt1 pos hfind
    obtain ⟨hcur', hb, hsw, hlen', hpos', hother', hdem'⟩ := t_yield_some rt1 pos hfind
    have hpc : rt1.current ≠ pos := fun e => by
      rw [← e, hcur1] at hready
      cases hready
    refine ⟨?_, pos, by rw [hsw], hcur', fun e => hpc (e.symm), by rw [hpos']⟩
    show ((t_yield rt1).1.threads.getD rt.current dT).state = State.Available
    have hdem : (t_yield rt1).1.threads.getD rt1.current dT
        = rt1.threads.getD rt1.current dT := by
      rw [hdem' hpc, if_neg (by rw [hcur1]; simp)]
    rw [show rt.current = rt1.current from rfl, hdem, hcur1]

/-- A reachable state with `current ≠ 0` for the C5 witness: fresh
runtime, one body spawned. -/
def rtW1 : Runtime :=
  match spawn 0 0 (Runtime.new (fun _ => 0)) with
  | .ok r => r
  | .error _ => Runtime.new (fun _ => 0)

/-- … after one `t_yield`, control is in slot 1. -/
def rtW2 : Runtime :=
  (t_yield rtW1).1

/-- C5 witness: `t_return` from slot 1 of `rtW2` reclaims the slot and
switches back to slot 0. -/
theorem C5_return_reclaims_witness :
    (rtW2.current = 0 → t_return rtW2 = (rtW2, none)) ∧
    (rtW2.current ≠ 0 →
      ((t_return rtW2).1.threads.getD rtW2.current dT).state
        = State.Available ∧
      ∃ pos, (t_return rtW2).2 = some (rtW2.current, pos) ∧
        (t_return rtW2).1.current = pos ∧ pos ≠ rtW2.current ∧
        ((t_return rtW2).1.threads.getD pos dT).state = State.Running) :=
  C5_return_reclaims (fun _ => 0) rtW2
    ((Relation.ReflTransGen.refl.tail
        (Step.spawn 0 0 (Runtime.new (fun _ => 0)) rtW1 rfl)).tail
      (Step.yield rtW1))

/-! ## Claim C1 -/

/-- The observable effect of one successful `spawn` selecting slot `i`:
that slot goes `Available` to `Ready`, the cursor and every other
slot's state are untouched. -/
def spawnEffect (a b : Runtime) (i : Nat) : Prop :=
  i < a.threads.length ∧
  (a.threads.getD i dT).state = State.Available ∧
  (b.threads.getD i dT).state = State.Ready ∧
  b.current = a.current ∧
  b.threads.length = a.threads.length ∧
  ∀ j, j < a.threads.length → j ≠ i →
    (b.threads.getD j dT).state = (a.threads.getD j dT).state

/-- C1: on a fresh runtime (capacity `MAX_THREADS = 4`, slot 0 reserved
for main) with no body yet completed, the first three `spawn` calls
succeed, each turning exactly one slot `Available → Ready`, and the
fourth fails with `resourceExhausted` (the modelled
`.expect("no available thread.")` failure, reported to `spawn`'s
caller). -/
theorem C1_capacity (bases : Nat → Nat) (g f1 f2 f3 f4 : Nat) :
    ∃ r1 r2 r3,
      spawn g f1 (Runtime.new bases) = .ok r1 ∧
      spawnEffect (Runtime.new bases) r1 1 ∧
      spawn g f2 r1 = .ok r2 ∧ spawnEffect r1 r2 2 ∧
      spawn g f3 r2 = .ok r3 ∧ spawnEffect r2 r3 3 ∧
      spawn g f4 r3 = .error SpawnError.resourceExhausted := by
  refine ⟨_, _, _, rfl, ?_, rfl, ?_, rfl, ?_, rfl⟩
  · refine ⟨by show (1:Nat) < 4; decide, rfl, rfl, rfl, rfl, ?_⟩
    intro j hj hji
    have hj4 : j < 4 := hj
    interval_cases j <;> first | rfl | exact absurd rfl hji
  · refine ⟨by show (2:Nat) < 4; decide, rfl, rfl, rfl, rfl, ?_⟩
    intro j hj hji
    have hj4 : j < 4 := hj
    interval_cases j <;> first | rfl | exact absurd rfl hji
  · refine ⟨by show (3:Nat) < 4; decide, rfl, rfl, rfl, rfl, ?_⟩
    intro j hj hji
    have hj4 : j < 4 := hj
    interval_cases j <;> first | rfl | exact absurd rfl hji

/-! ## Claim C6 -/

/-- C6: a successful `spawn` selects the first `Available` slot and
builds its initial frame near the top of that slot's stack: the body's
entry address `f` sits at byte offset `stackLen - 32`, the completion
trampoline (`guard`) address `g` sits 8 bytes above it at
`stackLen - 24`, the saved stack pointer points at the cell holding
`f`, and the slot ends up `Ready`. -/
theorem C6_spawn_frame (bases : Nat → Nat) (g f : Nat) (rt rt' : Runtime)
    (h : Reachable bases rt) (hok : spawn g f rt = .ok rt') :
    ∃ i, i < rt.threads.length ∧
      (rt.threads.getD i dT).state = State.Available ∧
      (∀ j, j < i → (rt.threads.getD j dT).state ≠ State.Available) ∧
      (rt'.threads.getD i dT).state = State.Ready ∧
      readCell (rt'.threads.getD i dT).stackMem
        ((rt'.threads.getD i dT).stackLen - 32) = f ∧
      readCell (rt'.threads.getD i dT).stackMem
        ((rt'.threads.getD i dT).stackLen - 24) = g ∧
      (rt'.threads.getD i dT).ctx.rsp
        = (rt'.threads.getD i dT).stackBase
          + ((rt'.threads.getD i dT).stackLen - 32) ∧
      (rt'.threads.getD i dT).stackLen - 24
        = ((rt'.threads.getD i dT).stackLen - 32) + 8 := by
  obtain ⟨hlen, hcur, hrun, huniq, hzero, hids⟩ := reachable_inv bases rt h
  rw [spawn] at hok
  cases hidx : rt.threads.findIdx? (fun t => t.state = State.Available) with
  | none => rw [hidx] at hok; cases hok
  | some i =>
    rw [hidx] at hok
    obtain ⟨hi, hpi, hmin⟩ := List.findIdx?_eq_some_iff_getElem.1 hidx
    have havail : (rt.threads.getD i dT).state = State.Available := by
      rw [getD_eq_getElem _ _ hi]
      simpa using hpi
    have hslen : (rt.threads.getD i dT).stackLen = DEFAULT_STACK_SIZE :=
      (hids i (by omega)).2
    injection hok with hok'
    subst hok'
    refine ⟨i, hi, havail, ?_, ?_, ?_, ?_, ?_, ?_⟩
    · intro j hji hav
      have := hmin j hji
      rw [getD_eq_getElem _ _ (by omega)] at hav
      simp [hav] at this
    · show ((rt.threads.set i _).getD i dT).state = State.Ready
      rw [getD_set_self _ _ _ hi]
    · show readCell _ _ = f
      rw [getD_set_self _ _ _ hi]
      exact readCell_writeCell_self _ _ _
    · show readCell _ _ = g
      rw [getD_set_self _ _ _ hi]
      have hne : ((rt.threads.getD i dT).stackLen - 32)
          ≠ ((rt.threads.getD i dT).stackLen - 24) := by
        rw [hslen]
        simp [DEFAULT_STACK_SIZE]
      show readCell (writeCell (writeCell _ _ g) _ f) _ = g
      rw [readCell_writeCell_ne _ _ _ _ hne]
      exact readCell_writeCell_self _ _ _
    · show ((rt.threads.set i _).getD i dT).ctx.rsp = _
      rw [getD_set_self _ _ _ hi]
    · show ((rt.threads.set i _).getD i dT).stackLen - 24 = _
      rw [getD_set_self _ _ _ hi]
      show (rt.threads.getD i dT).stackLen - 24 = _
      rw [hslen]
      simp [DEFAULT_STACK_SIZE]

/-- C6 witness: the first spawn on a fresh runtime (selects slot 1). -/
theorem C6_spawn_frame_witness :
    ∃ i, i < (Runtime.new (fun _ => 0)).threads.length ∧
      ((Runtime.new (fun _ => 0)).threads.getD i dT).state
        = State.Available ∧
      (∀ j, j < i → ((Runtime.new (fun _ => 0)).threads.getD j dT).state
        ≠ State.Available) ∧
      (rtW1.threads.getD i dT).state = State.Ready ∧
      readCell (rtW1.threads.getD i dT).stackMem
        ((rtW1.threads.getD i dT).stackLen - 32) = 0 ∧
      readCell (rtW1.threads.getD i dT).stackMem
        ((rtW1.threads.getD i dT).stackLen - 24) = 0 ∧
      (rtW1.threads.getD i dT).ctx.rsp
        = (rtW1.threads.getD i dT).stackBase
          + ((rtW1.threads.getD i dT).stackLen - 32) ∧
      (rtW1.threads.getD i dT).stackLen - 24
        = ((rtW1.threads.getD i dT).stackLen - 32) + 8 :=
  C6_spawn_frame (fun _ => 0) 0 0 (Runtime.new (fun _ => 0)) rtW1
    Relation.ReflTransGen.refl rfl

/-! ## Claim C8 -/

/-- C8: `run` loops on `t_yield` until it returns `false` and then ends
the process with exit status 0 — its only possible outcome is
`exited 0`, never a normal return. On a fresh runtime with zero spawned
bodies the very first `t_yield` finds no `Ready` slot, so `run`
terminates immediately (one iteration suffices, whatever extra fuel it
is given). -/
theorem C8_run_exits (bases : Nat → Nat) (fuel : Nat) (rt : Runtime) :
    (t_yield (Runtime.new bases)).2.1 = false ∧
    run (fuel + 1) (Runtime.new bases) = some (RunOutcome.exited 0) ∧
    (run fuel rt = none ∨ run fuel rt = some (RunOutcome.exited 0)) := by
  refine ⟨rfl, rfl, ?_⟩
  induction fuel generalizing rt with
  | zero => left; rfl
  | succ n ih =>
    show (if (t_yield rt).2.1 then run n (t_yield rt).1
        else some (RunOutcome.exited 0)) = none ∨
      (if (t_yield rt).2.1 then run n (t_yield rt).1
        else some (RunOutcome.exited 0)) = some (RunOutcome.exited 0)
    by_cases hb : (t_yield rt).2.1
    · rw [if_pos hb]
      exact ih (t_yield rt).1
    · rw [if_neg hb]
      right
      rfl

/-! ## Claim C9 -/

/-- One full round for one body: from the ready state, the scheduler
visits slot 1 and returns to main. -/
lemma sim1_round (f k : Nat) :
    sim (f + 2) (initRT 1) [0, k + 1, 0, 0] =
      (sim f (initRT 1) [0, k, 0, 0]).map (fun tr => 1 :: tr) := rfl

/-- Draining one finished body takes `1 + 2` events: main hands control
to slot 1, `t_return` reclaims it and switches back, main exits. -/
lemma sim1_drain (f : Nat) :
    sim (f + 3) (initRT 1) [0, 0, 0, 0] = some [] := rfl

lemma sim1K : ∀ K, sim (2 * K + 3) (initRT 1) (ylOf 1 K) = some (rrTrace 1 K) := by
  intro K
  induction K with
  | zero => exact sim1_drain 0
  | succ k ih =>
    have h1 : 2 * (k + 1) + 3 = (2 * k + 3) + 2 := by ring
    rw [h1]
    calc sim ((2 * k + 3) + 2) (initRT 1) (ylOf 1 (k + 1))
        = (sim (2 * k + 3) (initRT 1) [0, k, 0, 0]).map (fun tr => 1 :: tr) :=
          sim1_round (2 * k + 3) k
      _ = some (1 :: rrTrace 1 k) := by
          rw [show sim (2 * k + 3) (initRT 1) [0, k, 0, 0]
            = some (rrTrace 1 k) from ih]
          rfl
      _ = some (rrTrace 1 (k + 1)) := by
          rw [rrTrace, rrTrace, List.replicate_succ, List.flatten_cons]
          rfl

/-- One full round for two bodies: slots 1 and 2 each observe once. -/
lemma sim2_round (f k : Nat) :
    sim (f + 3) (initRT 2) [0, k + 1, k + 1, 0] =
      (sim f (initRT 2) [0, k, k, 0]).map (fun tr => 1 :: 2 :: tr) := by
  show ((sim f (initRT 2) [0, k, k, 0]).map
      (fun tr => (2 : Nat) :: tr)).map (fun tr => (1 : Nat) :: tr) = _
  rw [Option.map_map]
  rfl

lemma sim2_drain (f : Nat) :
    sim (f + 4) (initRT 2) [0, 0, 0, 0] = some [] := rfl

lemma sim2K : ∀ K, sim (3 * K + 4) (initRT 2) (ylOf 2 K) = some (rrTrace 2 K) := by
  intro K
  induction K with
  | zero => exact sim2_drain 0
  | succ k ih =>
    have h1 : 3 * (k + 1) + 4 = (3 * k + 4) + 3 := by ring
    rw [h1]
    calc sim ((3 * k + 4) + 3) (initRT 2) (ylOf 2 (k + 1))
        = (sim (3 * k + 4) (initRT 2) [0, k, k, 0]).map
            (fun tr => 1 :: 2 :: tr) := sim2_round (3 * k + 4) k
      _ = some (1 :: 2 :: rrTrace 2 k) := by
          rw [show sim (3 * k + 4) (initRT 2) [0, k, k, 0]
            = some (rrTrace 2 k) from ih]
          rfl
      _ = some (rrTrace 2 (k + 1)) := by
          rw [rrTrace, rrTrace, List.replicate_succ, List.flatten_cons]
          rfl

/-- One full round for three bodies: slots 1, 2 and 3 each observe once. -/
lemma sim3_round (f k : Nat) :
    sim (f + 4) (initRT 3) [0, k + 1, k + 1, k + 1] =
      (sim f (initRT 3) [0, k, k, k]).map (fun tr => 1 :: 2 :: 3 :: tr) := by
  show (((sim f (initRT 3) [0, k, k, k]).map
      (fun tr => (3 : Nat) :: tr)).map
      (fun tr => (2 : Nat) :: tr)).map (fun tr => (1 : Nat) :: tr) = _
  rw [Option.map_map, Option.map_map]
  rfl

lemma sim3_drain (f : Nat) :
    sim (f + 5) (initRT 3) [0, 0, 0, 0] = some [] := rfl

lemma sim3K : ∀ K, sim (4 * K + 5) (initRT 3) (ylOf 3 K) = some (rrTrace 3 K) := by
  intro K
  induction K with
  | zero => exact sim3_drain 0
  | succ k ih =>
    have h1 : 4 * (k + 1) + 5 = (4 * k + 5) + 4 := by ring
    rw [h1]
    calc sim ((4 * k + 5) + 4) (initRT 3) (ylOf 3 (k + 1))
        = (sim (4 * k + 5) (initRT 3) [0, k, k, k]).map
            (fun tr => 1 :: 2 :: 3 :: tr) := sim3_round (4 * k + 5) k
      _ = some (1 :: 2 :: 3 :: rrTrace 3 k) := by
          rw [show sim (4 * k + 5) (initRT 3) [0, k, k, k]
            = some (rrTrace 3 k) from ih]
          rfl
      _ = some (rrTrace 3 (k + 1)) := by
          rw [rrTrace, rrTrace, List.replicate_succ, List.flatten_cons]
          rfl

/-- C9: for `N` bodies (any spawnable `N`, i.e. `1 ≤ N ≤ MAX_THREADS-1`)
each observing and yielding exactly `K ≥ 1` times in a loop, the complete
cooperative execution terminates and its observation trace is exactly
`K` ascending rounds `1, 2, …, N` — strict round robin by ascending slot
index from the position after the current slot, deterministic, so
consecutive observations from different slots are in ascending index
order modulo wraparound. -/
theorem C9_round_robin (N K : Nat) (hN1 : 1 ≤ N) (hN3 : N ≤ 3) (hK : 1 ≤ K) :
    sim (simFuel N K) (initRT N) (ylOf N K) = some (rrTrace N K) := by
  interval_cases N
  · exact sim1K K
  · exact sim2K K
  · exact sim3K K

/-- C9 witness: two bodies, one yield each — trace `[1, 2]`. -/
theorem C9_round_robin_witness :
    sim (simFuel 2 1) (initRT 2) (ylOf 2 1) = some (rrTrace 2 1) :=
  C9_round_robin 2 1 (by decide) (by decide) (by decide)

end GreenThreads
